import Mathlib

set_option maxRecDepth 100000
set_option maxHeartbeats 2000000

/-!
Verification of the PLO (Pot-Limit Omaha) equity calculator backend
(`src/backend/main.py`) against its natural-language specification.

The Python source is shallowly embedded: each fallible Python operation
becomes an `Except PyErr`-valued Lean function, Python exceptions become
`PyErr` values, Python `float` arithmetic is modelled over `ℚ`, and the
random shuffle produced by the external `treys.Deck` constructor becomes an
explicit parameter (one card-list per trial).  The external `treys` library
(card constructor, deck, 5/6/7-card evaluator) is not part of the
repository; its primitives are modelled where used, each with a doc comment
saying so.
-/

/-- Python exception kinds that the embedded code can raise:
`valueError` models `ValueError` (the `"Invalid card format"` raise in
`convertCardStrToTreys` and `list.remove` on a missing element),
`indexError` models `IndexError` (indexing an empty string, popping an
empty deck), `keyError` models `KeyError` (the treys evaluator's
hand-size dispatch on an unsupported size), and `zeroDivisionError` models
`ZeroDivisionError` (float division by zero in the pot-odds formula). -/
inductive PyErr where
  | valueError
  | indexError
  | keyError
  | zeroDivisionError
  deriving Repr, DecidableEq

instance {ε α : Type} [DecidableEq ε] [DecidableEq α] : DecidableEq (Except ε α) := fun a b =>
  match a, b with
  | .error x, .error y =>
      if h : x = y then .isTrue (by rw [h]) else .isFalse (by simp [h])
  | .ok x, .ok y =>
      if h : x = y then .isTrue (by rw [h]) else .isFalse (by simp [h])
  | .error _, .ok _ => .isFalse (by simp)
  | .ok _, .error _ => .isFalse (by simp)

/-- Modelled external primitive: the treys card constructor invoked as
`TreysCard.new(rankMap[rank], suitMap[suit])` in `main.py` line 77, i.e. a
compact integer card identity determined injectively by the rank
(2..14) and suit (0..3) integers of `main.py`'s `rankMap`/`suitMap`.
Only injectivity and the resulting 52-value universe are relevant to this
development, so the code `rank * 4 + suit` is used. -/
def treysCardNew (rank suit : Nat) : Nat :=
  rank * 4 + suit

/-- Rank component of a card code (inverse of `treysCardNew`). -/
def cardRank (c : Nat) : Nat := c / 4

/-- Suit component of a card code (inverse of `treysCardNew`). -/
def cardSuit (c : Nat) : Nat := c % 4

/-- `main.py` lines 67-68: the `rankMap` dictionary, keyed by the
(uppercased) rank substring of a card token.  `none` models `key not in
rankMap`. -/
def rankLookup : List Char → Option Nat
  | ['2'] => some 2
  | ['3'] => some 3
  | ['4'] => some 4
  | ['5'] => some 5
  | ['6'] => some 6
  | ['7'] => some 7
  | ['8'] => some 8
  | ['9'] => some 9
  | ['1', '0'] => some 10
  | ['J'] => some 11
  | ['Q'] => some 12
  | ['K'] => some 13
  | ['A'] => some 14
  | _ => none

/-- `main.py` line 69: the `suitMap` dictionary, keyed by the lowercased
final character of a card token. -/
def suitLookup : Char → Option Nat
  | 's' => some 0
  | 'h' => some 1
  | 'd' => some 2
  | 'c' => some 3
  | _ => none

/-- `main.py` lines 57-77, `convertCardStrToTreys` on the token's character
list.  Line 71 computes `cardStr[:-1].upper()` (here `dropLast` mapped
through `Char.toUpper`); line 72 computes `cardStr[-1].lower()`, which in
Python raises `IndexError` on the empty string — hence the `getLast?`
match; lines 74-75 raise `ValueError("Invalid card format")` when the rank
or the suit is not a key of its map. -/
def convertChars (cs : List Char) : Except PyErr Nat :=
  match cs.getLast? with
  | none => .error .indexError
  | some lastChar =>
    let rank := cs.dropLast.map Char.toUpper
    let suit := lastChar.toLower
    match rankLookup rank, suitLookup suit with
    | some r, some s => .ok (treysCardNew r s)
    | _, _ => .error .valueError

/-- `main.py` lines 57-77: `convertCardStrToTreys` on a Python string. -/
def convertCardStrToTreys (cardStr : String) : Except PyErr Nat :=
  convertChars cardStr.data

/-- `main.py` lines 96-103: the conversion loops that append
`convertCardStrToTreys(card)` for each card token in order, propagating the
first decoding exception. -/
def convertAll : List String → Except PyErr (List Nat)
  | [] => .ok []
  | c :: cs =>
    match convertCardStrToTreys c with
    | .error e => .error e
    | .ok t =>
      match convertAll cs with
      | .error e => .error e
      | .ok ts => .ok (t :: ts)

/-- Modelled external primitive: the 52-card universe held by a fresh
`treys.Deck()`.  Under `treysCardNew` the 52 card codes are exactly
`8..59`; a trial's shuffle is any permutation of this list. -/
def fullDeck : List Nat :=
  (List.range 52).map (· + 8)

/-- `main.py` lines 115-116: `deck.cards.remove(card)` for each known card.
Python `list.remove` deletes the first occurrence and raises `ValueError`
when the element is absent. -/
def removeCards : List Nat → List Nat → Except PyErr (List Nat)
  | deck, [] => .ok deck
  | deck, c :: cs =>
    if c ∈ deck then removeCards (deck.erase c) cs else .error .valueError

/-- Modelled external primitive: `n` successive `deck.draw()` calls.  The
treys deck pops the front of its card list and raises `IndexError` when the
list is empty.  Returns the drawn cards (in draw order) and the remaining
deck. -/
def drawN : Nat → List Nat → Except PyErr (List Nat × List Nat)
  | 0, deck => .ok ([], deck)
  | _ + 1, [] => .error .indexError
  | n + 1, c :: deck =>
    match drawN n deck with
    | .error e => .error e
    | .ok (cs, deck') => .ok (c :: cs, deck')

/-- `main.py` lines 124-126: deal 4 fresh cards to each of `k` opponents in
turn from the shared deck. -/
def dealOpponents : Nat → List Nat → Except PyErr (List (List Nat) × List Nat)
  | 0, deck => .ok ([], deck)
  | k + 1, deck =>
    match drawN 4 deck with
    | .error e => .error e
    | .ok (cards, deck') =>
      match dealOpponents k deck' with
      | .error e => .error e
      | .ok (rest, deck'') => .ok (cards :: rest, deck'')

/-- Insert a value into a descending-sorted list, keeping it sorted. -/
def insertDesc (r : Nat) : List Nat → List Nat
  | [] => [r]
  | x :: xs => if x ≤ r then r :: x :: xs else x :: insertDesc r xs

/-- Sort a list of ranks in descending order. -/
def sortDesc (l : List Nat) : List Nat :=
  l.foldr insertDesc []

/-- High card of a straight for a descending-sorted 5-rank list: five
distinct consecutive ranks, or the wheel `A-5-4-3-2` (high card 5). -/
def straightHigh (rs : List Nat) : Option Nat :=
  match rs with
  | [a, _, _, _, e] =>
    if rs.Nodup ∧ a - e = 4 then some a
    else if rs = [14, 5, 4, 3, 2] then some 5
    else none
  | _ => none

/-- Encode a hand category (0 = straight flush best .. 8 = high card) and
its tie-break ranks (descending significance) into a single natural number
where a LOWER value is a strictly better poker hand, matching the treys
convention.  Tie-break ranks are at most 14, so digits `14 - r` in base 15
order hands with equal category by their tie-break ranks, higher rank
better; the list is padded so all hands of one category compare on equal
length. -/
def encodeScore (cat : Nat) (tb : List Nat) : Nat :=
  (tb ++ List.replicate (5 - tb.length) 14).foldl (fun acc r => acc * 15 + (14 - r)) cat

/-- Modelled external primitive: a 5-card poker hand score with the
standard ordering — straight flush > four-of-a-kind > full house > flush >
straight > three-of-a-kind > two pair > one pair > high card, tie-broken by
kicker ranks — lower score = better hand, as produced by the treys lookup
tables (order-isomorphic; the exact treys table values are irrelevant, only
comparisons are ever used). -/
def score5 (cards : List Nat) : Nat :=
  let rs := sortDesc (cards.map cardRank)
  let isFlush := (cards.map cardSuit).dedup.length = 1
  let stHigh := straightHigh rs
  let uniq := rs.dedup
  let quadRanks := uniq.filter (fun r => rs.count r = 4)
  let tripRanks := uniq.filter (fun r => rs.count r = 3)
  let pairRanks := uniq.filter (fun r => rs.count r = 2)
  let singleRanks := uniq.filter (fun r => rs.count r = 1)
  match stHigh with
  | some h => if isFlush then encodeScore 0 [h] else encodeScore 4 [h]
  | none =>
    match quadRanks, tripRanks, pairRanks with
    | q :: _, _, _ => encodeScore 1 (q :: singleRanks)
    | [], t :: _, p :: _ => encodeScore 2 [t, p]
    | [], t :: _, [] => encodeScore 5 (t :: singleRanks)
    | [], [], [p1, p2] => encodeScore 6 ([p1, p2] ++ singleRanks)
    | [], [], [p] => encodeScore 7 (p :: singleRanks)
    | [], [], _ => if isFlush then encodeScore 3 rs else encodeScore 8 rs

/-- Upper bound sentinel: strictly larger than every `score5` value. -/
def scoreSentinel : Nat := 15 ^ 7

/-- Modelled external primitive: `evaluator.evaluate(cards, board)` of the
treys `Evaluator` — concatenates its two arguments and returns the best
(minimum) `score5` over all 5-card subsets; its hand-size dispatch table
raises `KeyError` below 5 cards.  (The published treys dispatch accepts
exactly 5, 6 or 7 cards; `main.py` feeds it 9-card hands, which the
published library would also reject — here the spec's assumed "best
5-card-subset" reading is extended to every size ≥ 5, the reading most
favourable to the source.) -/
def treysEvaluate (cards board : List Nat) : Except PyErr Nat :=
  let allCards := cards ++ board
  if allCards.length < 5 then .error .keyError
  else .ok ((((allCards.sublistsLen 5).map score5).foldl Nat.min scoreSentinel))

/-- Modelled from the spec (§4.3 Hand Evaluator), for comparison with what
the source computes: the Omaha best rank — the minimum `score5` over all
C(4,2) × C(5,3) = 60 combinations of exactly 2 hole cards and exactly 3
board cards. -/
def bestRankSpec (hole board : List Nat) : Nat :=
  ((hole.sublistsLen 2).map (fun h2 =>
      ((board.sublistsLen 3).map (fun b3 => score5 (h2 ++ b3))).foldl Nat.min scoreSentinel)).foldl
    Nat.min scoreSentinel

/-- `main.py` lines 133-135: the trial's win test
`all(evaluator.evaluate(oppHand, []) > ourScore for oppHand in opponentHands)`,
returning the increment added to `wins` (1 when every opponent's score is
strictly greater — i.e. strictly worse, scores being lower-is-better — and
0 otherwise). -/
def compareHands (ourScore : Nat) (oppScores : List Nat) : Nat :=
  if oppScores.all (fun s => decide (ourScore < s)) then 1 else 0

/-- All intermediate values of one Monte Carlo trial (`main.py` lines
112-135). -/
structure TrialData where
  deckAfterExclusions : List Nat
  boardDrawn : List Nat
  currentCommunity : List Nat
  opponentHoleCards : List (List Nat)
  ourHand : List Nat
  ourScore : Nat
  oppScores : List Nat
  deriving Repr, DecidableEq

/-- One trial of the Monte Carlo loop, `main.py` lines 112-135, for one
shuffled deck: build a fresh deck and remove the known cards (113-116),
complete the community cards by drawing to 5 (118-121), deal 4 cards to
each of `numPlayers - 1` opponents (123-127), evaluate our 4+5-card hand
(129-131) and each opponent hand `opponentCards + currentCommunity`
(127, 134). -/
def trialData (holeT commT : List Nat) (numPlayers : Nat) (shuffle : List Nat) :
    Except PyErr TrialData :=
  match removeCards shuffle (holeT ++ commT) with
  | .error e => .error e
  | .ok deck0 =>
    match drawN (5 - commT.length) deck0 with
    | .error e => .error e
    | .ok (boardDrawn, deck1) =>
      let currentCommunity := commT ++ boardDrawn
      match dealOpponents (numPlayers - 1) deck1 with
      | .error e => .error e
      | .ok (oppCards, _) =>
        let ourHand := holeT ++ currentCommunity
        match treysEvaluate ourHand [] with
        | .error e => .error e
        | .ok ourScore =>
          match (oppCards.map (· ++ currentCommunity)).mapM (fun h => treysEvaluate h []) with
          | .error e => .error e
          | .ok oppScores =>
            .ok ⟨deck0, boardDrawn, currentCommunity, oppCards, ourHand, ourScore, oppScores⟩

/-- One trial's contribution to `wins` (`main.py` lines 112-135): 1 when
the hero wins the trial, 0 otherwise, or the Python exception the trial
raises. -/
def runTrial (holeT commT : List Nat) (numPlayers : Nat) (shuffle : List Nat) :
    Except PyErr Nat :=
  match trialData holeT commT numPlayers shuffle with
  | .error e => .error e
  | .ok t => .ok (compareHands t.ourScore t.oppScores)

/-- `main.py` line 109: `numSimulations = 1000`. -/
def numSimulations : Nat := 1000

/-- `main.py` lines 110-135: the simulation loop accumulating `wins` over
trials `i, i+1, ..., i+n-1`, where trial `j` opens with a freshly
constructed `TreysDeck()` modelled by the shuffle `shuffles j`. -/
def simLoop (holeT commT : List Nat) (numPlayers : Nat) (shuffles : Nat → List Nat) :
    Nat → Nat → Except PyErr Nat
  | _, 0 => .ok 0
  | i, n + 1 =>
    match runTrial holeT commT numPlayers (shuffles i) with
    | .error e => .error e
    | .ok inc =>
      match simLoop holeT commT numPlayers shuffles (i + 1) n with
      | .error e => .error e
      | .ok rest => .ok (inc + rest)

/-- `main.py` lines 79-149, `calculateEquity`: decode the hole and
community card tokens (96-103), run `numSimulations` Monte Carlo trials
(109-138) and return `wins / numSimulations` (140-145).  Python float
arithmetic is modelled over `ℚ`; any exception propagates to the caller
(147-149 re-raise). -/
def calculateEquity (holeCards communityCards : List String) (numPlayers : Nat)
    (shuffles : Nat → List Nat) : Except PyErr ℚ :=
  match convertAll holeCards with
  | .error e => .error e
  | .ok holeCardsTreys =>
    match convertAll communityCards with
    | .error e => .error e
    | .ok communityCardsTreys =>
      match simLoop holeCardsTreys communityCardsTreys numPlayers shuffles 0 numSimulations with
      | .error e => .error e
      | .ok wins => .ok ((wins : ℚ) / (numSimulations : ℚ))

/-- `main.py` line 173, the pot-odds computation of `calculateOdds`:
`request.betToCall / (request.potSize + request.betToCall)`.  Python float
division raises `ZeroDivisionError` exactly when the divisor is zero and
otherwise returns the quotient; no other validation is performed. -/
def potOdds (potSize betToCall : ℚ) : Except PyErr ℚ :=
  if potSize + betToCall = 0 then .error .zeroDivisionError
  else .ok (betToCall / (potSize + betToCall))

/-! ### Helper lemmas about the embedded operations -/

theorem removeCards_spec : ∀ (cs deck d : List Nat), deck.Nodup →
    removeCards deck cs = .ok d →
    d.Nodup ∧ d ⊆ deck ∧ ∀ c ∈ cs, c ∉ d := by
  intro cs
  induction cs with
  | nil =>
    intro deck d hnd h
    simp only [removeCards, Except.ok.injEq] at h
    subst h
    exact ⟨hnd, fun x hx => hx, by simp⟩
  | cons c cs ih =>
    intro deck d hnd h
    simp only [removeCards] at h
    split at h
    · rename_i hc
      obtain ⟨h1, h2, h3⟩ := ih (deck.erase c) d (hnd.erase c) h
      refine ⟨h1, fun x hx => List.erase_subset _ _ (h2 hx), ?_⟩
      intro x hx
      rcases List.mem_cons.mp hx with hxc | hxcs
      · subst hxc
        intro hxd
        exact hnd.not_mem_erase (h2 hxd)
      · exact h3 x hxcs
    · cases h

theorem drawN_eq : ∀ (n : Nat) (deck cs rest : List Nat),
    drawN n deck = .ok (cs, rest) → cs = deck.take n ∧ rest = deck.drop n := by
  intro n
  induction n with
  | zero =>
    intro deck cs rest h
    simp only [drawN, Except.ok.injEq, Prod.mk.injEq] at h
    simp [← h.1, ← h.2]
  | succ n ih =>
    intro deck cs rest h
    match deck with
    | [] => simp [drawN] at h
    | x :: deck =>
      simp only [drawN] at h
      split at h
      · cases h
      · rename_i cs' deck' heq
        simp only [Except.ok.injEq, Prod.mk.injEq] at h
        obtain ⟨h1, h2⟩ := ih deck cs' deck' heq
        simp [← h.1, ← h.2, h1, h2]

theorem dealOpponents_eq : ∀ (k : Nat) (deck : List Nat) (hs : List (List Nat)) (rest : List Nat),
    dealOpponents k deck = .ok (hs, rest) →
    hs.flatten = deck.take (4 * k) ∧ rest = deck.drop (4 * k) := by
  intro k
  induction k with
  | zero =>
    intro deck hs rest h
    simp only [dealOpponents, Except.ok.injEq, Prod.mk.injEq] at h
    simp [← h.1, ← h.2]
  | succ k ih =>
    intro deck hs rest h
    simp only [dealOpponents] at h
    split at h
    · cases h
    · rename_i cards deck' heq
      split at h
      · cases h
      · rename_i rest' deck'' heq2
        simp only [Except.ok.injEq, Prod.mk.injEq] at h
        obtain ⟨hc1, hc2⟩ := drawN_eq 4 deck cards deck' heq
        obtain ⟨hr1, hr2⟩ := ih deck' rest' deck'' heq2
        have hmul : 4 * (k + 1) = 4 + 4 * k := by ring
        constructor
        · rw [← h.1]
          simp only [List.flatten_cons, hr1, hc1, hc2, hmul]
          rw [List.take_add]
        · rw [← h.2, hr2, hc2, hmul, List.drop_drop, Nat.add_comm]

theorem trialData_spec (holeT commT : List Nat) (np : Nat) (shuffle : List Nat) (t : TrialData)
    (h : trialData holeT commT np shuffle = .ok t) :
    removeCards shuffle (holeT ++ commT) = .ok t.deckAfterExclusions
    ∧ t.boardDrawn = t.deckAfterExclusions.take (5 - commT.length)
    ∧ t.opponentHoleCards.flatten
        = (t.deckAfterExclusions.drop (5 - commT.length)).take (4 * (np - 1))
    ∧ t.currentCommunity = commT ++ t.boardDrawn
    ∧ t.ourHand = holeT ++ t.currentCommunity
    ∧ runTrial holeT commT np shuffle = .ok (compareHands t.ourScore t.oppScores) := by
  rw [trialData] at h
  cases hrm : removeCards shuffle (holeT ++ commT) with
  | error e => rw [hrm] at h; simp at h
  | ok deck0 =>
  rw [hrm] at h
  dsimp only at h
  cases hdraw : drawN (5 - commT.length) deck0 with
  | error e => rw [hdraw] at h; simp at h
  | ok pr =>
  obtain ⟨boardDrawn, deck1⟩ := pr
  rw [hdraw] at h
  dsimp only at h
  cases hdeal : dealOpponents (np - 1) deck1 with
  | error e => rw [hdeal] at h; simp at h
  | ok pr2 =>
  obtain ⟨oppCards, deckRest⟩ := pr2
  rw [hdeal] at h
  dsimp only at h
  cases hour : treysEvaluate (holeT ++ (commT ++ boardDrawn)) [] with
  | error e => rw [hour] at h; simp at h
  | ok ourScore =>
  rw [hour] at h
  dsimp only at h
  cases hopp : (oppCards.map (· ++ (commT ++ boardDrawn))).mapM (fun hd => treysEvaluate hd []) with
  | error e => rw [hopp] at h; simp at h
  | ok oppScores =>
  rw [hopp] at h
  dsimp only at h
  simp only [Except.ok.injEq] at h
  subst h
  obtain ⟨hb, hd1⟩ := drawN_eq _ deck0 boardDrawn deck1 hdraw
  obtain ⟨ho, _⟩ := dealOpponents_eq _ deck1 oppCards deckRest hdeal
  refine ⟨rfl, hb, ?_, rfl, rfl, ?_⟩
  · rw [ho, hd1]
  · rw [runTrial, trialData, hrm]
    dsimp only
    rw [hdraw]
    dsimp only
    rw [hdeal]
    dsimp only
    rw [hour]
    dsimp only
    rw [hopp]

theorem runTrial_le_one (holeT commT : List Nat) (np : Nat) (shuffle : List Nat) (b : Nat)
    (h : runTrial holeT commT np shuffle = .ok b) : b ≤ 1 := by
  simp only [runTrial] at h
  split at h
  · cases h
  · simp only [Except.ok.injEq] at h
    subst h
    simp only [compareHands]
    split <;> omega

theorem simLoop_const (holeT commT : List Nat) (np b : Nat) (s : List Nat)
    (hb : runTrial holeT commT np s = .ok b) :
    ∀ (n i : Nat), simLoop holeT commT np (fun _ => s) i n = .ok (n * b) := by
  intro n
  induction n with
  | zero => intro i; simp [simLoop]
  | succ n ih =>
    intro i
    simp only [simLoop, hb, ih (i + 1)]
    congr 1
    ring

theorem simLoop_count (holeT commT : List Nat) (np : Nat) (shuffles : Nat → List Nat) :
    ∀ (n i w : Nat), simLoop holeT commT np shuffles i n = .ok w →
    w = (List.range n).countP
          (fun j => match runTrial holeT commT np (shuffles (i + j)) with
            | .ok 1 => true
            | _ => false)
    ∧ w ≤ n := by
  intro n
  induction n with
  | zero =>
    intro i w h
    simp only [simLoop, Except.ok.injEq] at h
    simp [← h]
  | succ n ih =>
    intro i w h
    simp only [simLoop] at h
    split at h
    · cases h
    · rename_i inc hinc
      split at h
      · cases h
      · rename_i rest hrest
        simp only [Except.ok.injEq] at h
        obtain ⟨hcount, hle⟩ := ih (i + 1) rest hrest
        have hinc1 : inc ≤ 1 := runTrial_le_one _ _ _ _ _ hinc
        have hshift :
            (List.range n).countP
                (fun j => match runTrial holeT commT np (shuffles (i + 1 + j)) with
                  | .ok 1 => true
                  | _ => false)
            = (List.range n).countP
                ((fun j => match runTrial holeT commT np (shuffles (i + j)) with
                  | .ok 1 => true
                  | _ => false) ∘ Nat.succ) := by
          apply List.countP_congr
          intro a _
          simp only [Function.comp]
          have : i + 1 + a = i + Nat.succ a := by omega
          rw [this]
        have hrange :
            (List.range (n + 1)).countP
                (fun j => match runTrial holeT commT np (shuffles (i + j)) with
                  | .ok 1 => true
                  | _ => false)
            = ((if (match runTrial holeT commT np (shuffles (i + 0)) with
                  | .ok 1 => true
                  | _ => false) = true then 1 else 0)
               + (List.range n).countP
                  ((fun j => match runTrial holeT commT np (shuffles (i + j)) with
                    | .ok 1 => true
                    | _ => false) ∘ Nat.succ)) := by
          rw [List.range_succ_eq_map, List.countP_cons, List.countP_map]
          split <;> omega
        have hif : (if (match runTrial holeT commT np (shuffles (i + 0)) with
              | .ok 1 => true
              | _ => false) = true then 1 else 0) = inc := by
          have h01 : inc = 0 ∨ inc = 1 := by omega
          rcases h01 with h01 | h01 <;> subst h01 <;> simp [hinc]
        constructor
        · rw [← h, hrange, ← hshift, ← hcount, hif]
        · omega

theorem convertAll_forall₂ : ∀ (l : List String) (ts : List Nat), convertAll l = .ok ts →
    List.Forall₂ (fun sStr c => convertCardStrToTreys sStr = .ok c) l ts := by
  intro l
  induction l with
  | nil =>
    intro ts h
    simp only [convertAll, Except.ok.injEq] at h
    subst h
    exact List.Forall₂.nil
  | cons a l ih =>
    intro ts h
    rw [convertAll] at h
    cases hca : convertCardStrToTreys a with
    | error e => rw [hca] at h; simp at h
    | ok t =>
    rw [hca] at h
    dsimp only at h
    cases hcl : convertAll l with
    | error e => rw [hcl] at h; simp at h
    | ok ts' =>
    rw [hcl] at h
    dsimp only at h
    simp only [Except.ok.injEq] at h
    subst h
    exact List.Forall₂.cons hca (ih ts' hcl)

theorem calculateEquity_const (hole comm : List String) (np b : Nat) (s : List Nat)
    (holeT commT : List Nat)
    (hh : convertAll hole = .ok holeT) (hc : convertAll comm = .ok commT)
    (hb : runTrial holeT commT np s = .ok b) :
    calculateEquity hole comm np (fun _ => s)
      = .ok (((numSimulations * b : Nat) : ℚ) / (numSimulations : ℚ)) := by
  rw [calculateEquity, hh]
  dsimp only
  rw [hc]
  dsimp only
  rw [simLoop_const holeT commT np b s hb numSimulations 0]

/-! ### Claim theorems -/

/-- C1 (code_bug): the hand strength used in a trial's comparison is NOT
the best score over the 60 two-hole/three-board Omaha combinations.  With
the hero holding As 2s 3h 4h on the fully known board Ks Qs Js 10s 9s, the
trial's `ourScore` — `evaluate` applied to the concatenated 9 cards, i.e.
(at best) the minimum over all 5-card subsets — finds the board's straight
flush, while the Omaha rule (exactly 2 hole + exactly 3 board cards) only
allows an ace-high flush, so the two ranks differ. -/
theorem c1_trial_score_is_not_omaha_best_rank :
    convertAll ["As", "2s", "3h", "4h"] = .ok [56, 8, 13, 17]
    ∧ convertAll ["Ks", "Qs", "Js", "10s", "9s"] = .ok [52, 48, 44, 40, 36]
    ∧ (trialData [56, 8, 13, 17] [52, 48, 44, 40, 36] 1 fullDeck).isOk = true
    ∧ (trialData [56, 8, 13, 17] [52, 48, 44, 40, 36] 1 fullDeck).map TrialData.ourScore
        ≠ Except.ok (bestRankSpec [56, 8, 13, 17] [52, 48, 44, 40, 36]) := by
  refine ⟨by decide, by decide, by decide, by decide⟩

/-- C2 (confirmed): in every trial that completes, the hero's win increment
is 1 exactly when the hero's score is strictly better (strictly lower,
scores being lower-is-better) than every opponent's score, and 0 exactly
when some opponent's score ties or beats the hero's — a tie contributes
nothing to the win count. -/
theorem c2_win_iff_strictly_best (holeT commT : List Nat) (np : Nat) (shuffle : List Nat)
    (t : TrialData) (h : trialData holeT commT np shuffle = .ok t) :
    runTrial holeT commT np shuffle = .ok (compareHands t.ourScore t.oppScores)
    ∧ (compareHands t.ourScore t.oppScores = 1 ↔ ∀ s ∈ t.oppScores, t.ourScore < s)
    ∧ (compareHands t.ourScore t.oppScores = 0 ↔ ∃ s ∈ t.oppScores, s ≤ t.ourScore) := by
  obtain ⟨-, -, -, -, -, hrun⟩ := trialData_spec _ _ _ _ _ h
  have hiff : (t.oppScores.all (fun s => decide (t.ourScore < s)) = true)
      ↔ ∀ s ∈ t.oppScores, t.ourScore < s := by
    simp [List.all_eq_true]
  refine ⟨hrun, ?_, ?_⟩
  · rw [compareHands]
    split
    · rename_i ha
      exact iff_of_true rfl (hiff.mp ha)
    · rename_i ha
      exact iff_of_false (by omega) (fun hall => ha (hiff.mpr hall))
  · rw [compareHands]
    split
    · rename_i ha
      refine iff_of_false (by omega) ?_
      rintro ⟨s, hs, hle⟩
      exact absurd (hiff.mp ha s hs) (not_lt.mpr hle)
    · rename_i ha
      refine iff_of_true rfl ?_
      by_contra hno
      push_neg at hno
      exact ha (hiff.mpr hno)

/-- Witness for C2 at a concrete two-player trial. -/
theorem c2_witness :
    ∃ t, trialData [56, 54, 49, 47] [11, 30, 33, 36, 40] 2 fullDeck = .ok t
      ∧ runTrial [56, 54, 49, 47] [11, 30, 33, 36, 40] 2 fullDeck
          = .ok (compareHands t.ourScore t.oppScores)
      ∧ (compareHands t.ourScore t.oppScores = 1 ↔ ∀ s ∈ t.oppScores, t.ourScore < s)
      ∧ (compareHands t.ourScore t.oppScores = 0 ↔ ∃ s ∈ t.oppScores, s ≤ t.ourScore) := by
  cases h : trialData [56, 54, 49, 47] [11, 30, 33, 36, 40] 2 fullDeck with
  | error e =>
    have hok : (trialData [56, 54, 49, 47] [11, 30, 33, 36, 40] 2 fullDeck).isOk = true := by
      decide
    rw [h] at hok
    simp [Except.isOk, Except.toBool] at hok
  | ok t =>
    obtain ⟨h1, h2, h3⟩ := c2_win_iff_strictly_best _ _ _ _ _ h
    exact ⟨t, rfl, h1, h2, h3⟩

/-- C3 (confirmed): whenever `calculateEquity` returns a value, that value
is the number of winning trials divided by the trial count 1000, hence lies
in `[0, 1]`. -/
theorem c3_equity_is_wins_over_1000 (hole comm : List String) (np : Nat)
    (shuffles : Nat → List Nat) (q : ℚ)
    (h : calculateEquity hole comm np shuffles = .ok q) :
    numSimulations = 1000
    ∧ ∃ holeT commT,
        convertAll hole = .ok holeT ∧ convertAll comm = .ok commT
        ∧ q = ((List.range numSimulations).countP
                (fun i => match runTrial holeT commT np (shuffles i) with
                  | .ok 1 => true
                  | _ => false) : ℚ) / (numSimulations : ℚ)
        ∧ 0 ≤ q ∧ q ≤ 1 := by
  rw [calculateEquity] at h
  cases hh : convertAll hole with
  | error e => rw [hh] at h; simp at h
  | ok holeT =>
  rw [hh] at h
  dsimp only at h
  cases hc : convertAll comm with
  | error e => rw [hc] at h; simp at h
  | ok commT =>
  rw [hc] at h
  dsimp only at h
  cases hs : simLoop holeT commT np shuffles 0 numSimulations with
  | error e => rw [hs] at h; simp at h
  | ok wins =>
  rw [hs] at h
  dsimp only at h
  simp only [Except.ok.injEq] at h
  obtain ⟨hcount, hle⟩ := simLoop_count holeT commT np shuffles numSimulations 0 wins hs
  have hshift : (List.range numSimulations).countP
        (fun j => match runTrial holeT commT np (shuffles (0 + j)) with
          | .ok 1 => true
          | _ => false)
      = (List.range numSimulations).countP
        (fun i => match runTrial holeT commT np (shuffles i) with
          | .ok 1 => true
          | _ => false) := by
    apply List.countP_congr
    intro a _
    rw [Nat.zero_add]
  refine ⟨rfl, holeT, commT, rfl, rfl, ?_, ?_, ?_⟩
  · rw [← h, hcount, hshift]
  · rw [← h]
    positivity
  · rw [← h]
    rw [div_le_one (by norm_num [numSimulations] : (0 : ℚ) < (numSimulations : ℚ))]
    have : wins ≤ numSimulations := hle
    exact_mod_cast this

/-- Witness for C3 at a concrete successful call (hero holds four aces
against the board Ks Kd Kh Kc 2s, one opponent, constant shuffle). -/
theorem c3_witness :
    ∃ q, calculateEquity ["As", "Ad", "Ah", "Ac"] ["Ks", "Kd", "Kh", "Kc", "2s"] 2
          (fun _ => fullDeck) = .ok q
      ∧ 0 ≤ q ∧ q ≤ 1 := by
  have heq := calculateEquity_const ["As", "Ad", "Ah", "Ac"] ["Ks", "Kd", "Kh", "Kc", "2s"]
      2 1 fullDeck [56, 58, 57, 59] [52, 54, 53, 55, 8] (by decide) (by decide) (by decide)
  obtain ⟨-, hT, cT, -, -, -, h0, h1⟩ := c3_equity_is_wins_over_1000 _ _ _ _ _ heq
  exact ⟨_, heq, h0, h1⟩

/-- C4 (confirmed): in any trial run from a duplicate-free shuffled deck,
the drawn cards (board completion plus all opponent hole cards) are
pairwise distinct and disjoint from the hero's hole cards and the known
community cards; the trial's deck is freshly reconstructed from its own
shuffle minus exactly the known cards. -/
theorem c4_trial_draws_distinct_and_disjoint (holeT commT : List Nat) (np : Nat)
    (shuffle : List Nat) (t : TrialData)
    (hnd : shuffle.Nodup) (h : trialData holeT commT np shuffle = .ok t) :
    (t.boardDrawn ++ t.opponentHoleCards.flatten).Nodup
    ∧ (∀ c ∈ t.boardDrawn ++ t.opponentHoleCards.flatten, c ∉ holeT ++ commT)
    ∧ removeCards shuffle (holeT ++ commT) = .ok t.deckAfterExclusions := by
  obtain ⟨hrm, hb, ho, -, -, -⟩ := trialData_spec _ _ _ _ _ h
  obtain ⟨hdn, hsub, hnotin⟩ := removeCards_spec _ _ _ hnd hrm
  have hdrawn : t.boardDrawn ++ t.opponentHoleCards.flatten
      = t.deckAfterExclusions.take ((5 - commT.length) + 4 * (np - 1)) := by
    rw [hb, ho, List.take_add]
  refine ⟨?_, ?_, hrm⟩
  · rw [hdrawn]
    exact List.Nodup.sublist (List.take_sublist _ _) hdn
  · intro c hc
    rw [hdrawn] at hc
    have hcd : c ∈ t.deckAfterExclusions := List.take_subset _ _ hc
    intro hmem
    exact hnotin c hmem hcd

/-- Witness for C4 at a concrete two-player trial. -/
theorem c4_witness :
    ∃ t, trialData [56, 58, 57, 59] [52, 54, 53, 55, 8] 2 fullDeck = .ok t
      ∧ (t.boardDrawn ++ t.opponentHoleCards.flatten).Nodup
      ∧ (∀ c ∈ t.boardDrawn ++ t.opponentHoleCards.flatten,
          c ∉ [56, 58, 57, 59] ++ [52, 54, 53, 55, 8])
      ∧ removeCards fullDeck ([56, 58, 57, 59] ++ [52, 54, 53, 55, 8])
          = .ok t.deckAfterExclusions := by
  cases h : trialData [56, 58, 57, 59] [52, 54, 53, 55, 8] 2 fullDeck with
  | error e =>
    have hok : (trialData [56, 58, 57, 59] [52, 54, 53, 55, 8] 2 fullDeck).isOk = true := by
      decide
    rw [h] at hok
    simp [Except.isOk, Except.toBool] at hok
  | ok t =>
    obtain ⟨h1, h2, h3⟩ :=
      c4_trial_draws_distinct_and_disjoint _ _ _ _ _ (by decide : fullDeck.Nodup) h
    exact ⟨t, rfl, h1, h2, h3⟩

/-- C5 (code_bug): `calculateEquity` performs no player-count validation.
Called with `numPlayers = 1` (zero opponents) on a valid hand it returns
the equity value 1.0 — every trial's win test quantifies over an empty
list of opponents — instead of failing with any invalid-player-count
error. -/
theorem c5_numPlayers_one_returns_equity_one :
    calculateEquity ["As", "Kd", "Qh", "Jc"] ["2c", "7d", "8h", "9s", "10s"] 1
      (fun _ => fullDeck) = .ok 1 := by
  have heq := calculateEquity_const ["As", "Kd", "Qh", "Jc"] ["2c", "7d", "8h", "9s", "10s"]
      1 1 fullDeck [56, 54, 49, 47] [11, 30, 33, 36, 40] (by decide) (by decide) (by decide)
  rw [heq]
  norm_num [numSimulations]

/-- C6 (code_bug): with `numPlayers = 14` and an empty board the per-trial
draws (5 board + 13 × 4 opponent cards = 57) exceed the 48 remaining cards,
and `calculateEquity` fails with the deck-exhaustion `IndexError` raised by
`deck.draw()` inside the first trial — there is no fail-fast
insufficient-deck check before the trial loop. -/
theorem c6_deck_exhaustion_mid_trial :
    calculateEquity ["As", "Kd", "Qh", "Jc"] [] 14 (fun _ => fullDeck)
      = .error .indexError := by
  decide

/-- C7 counterexample (corrected): decoding the empty token does fail, but
with the `IndexError` raised by `cardStr[-1]`, not with the
invalid-card-format `ValueError` — even though its rank substring (the
empty string) is not one of the 13 recognized ranks. -/
theorem c7_counterexample_empty_token :
    convertCardStrToTreys "" = .error .indexError
    ∧ convertCardStrToTreys "" ≠ .error .valueError
    ∧ rankLookup ("".data.dropLast.map Char.toUpper) = none := by
  refine ⟨by decide, by decide, by decide⟩

/-- C7 amended (corrected): for every NONEMPTY token, decoding fails with
the invalid-card-format `ValueError` exactly when the uppercased rank
substring is not one of the 13 recognized ranks or the lowercased final
character is not one of the 4 recognized suit letters, and succeeds
otherwise; the empty token instead fails with an `IndexError`. -/
theorem c7_amended_decode_validation (init : List Char) (c : Char) :
    (convertChars (init ++ [c]) = .error .valueError
      ↔ (rankLookup (init.map Char.toUpper) = none ∨ suitLookup c.toLower = none))
    ∧ ((∃ n, convertChars (init ++ [c]) = .ok n)
      ↔ ((rankLookup (init.map Char.toUpper)).isSome ∧ (suitLookup c.toLower).isSome))
    ∧ convertChars [] = .error .indexError := by
  have hlast : (init ++ [c]).getLast? = some c := List.getLast?_concat _
  have hdrop : (init ++ [c]).dropLast = init := List.dropLast_concat
  refine ⟨?_, ?_, by decide⟩ <;>
    rw [convertChars, hlast, hdrop] <;>
    dsimp only <;>
    cases hr : rankLookup (init.map Char.toUpper) <;>
      cases hs : suitLookup c.toLower <;>
      simp

/-- C8 counterexample (corrected): with `potSize = -100`, `betToCall = 50`
the sum is negative, yet the pot-odds computation returns the value `-1`
instead of failing with any invalid-pot-size error. -/
theorem c8_counterexample_negative_pot :
    ((-100 : ℚ) + 50 ≤ 0) ∧ potOdds (-100) 50 = .ok (-1) := by
  constructor
  · norm_num
  · rw [potOdds]
    norm_num

/-- C8 amended (corrected): the pot-odds computation returns
`betToCall / (potSize + betToCall)` whenever `potSize + betToCall ≠ 0`
(including negative sums), and raises `ZeroDivisionError` — not an
invalid-pot-size error — when `potSize + betToCall = 0`. -/
theorem c8_amended_pot_odds (potSize betToCall : ℚ) :
    (potSize + betToCall ≠ 0 →
      potOdds potSize betToCall = .ok (betToCall / (potSize + betToCall)))
    ∧ (potSize + betToCall = 0 →
      potOdds potSize betToCall = .error .zeroDivisionError) := by
  constructor
  · intro h
    rw [potOdds, if_neg h]
  · intro h
    rw [potOdds, if_pos h]

/-- Witness for the amended C8: `potOdds(100, 50) = 50/150` and a zero
denominator raises. -/
theorem c8_amended_pot_odds_witness :
    potOdds 100 50 = .ok (50 / 150) ∧ potOdds 1 (-1) = .error .zeroDivisionError := by
  constructor
  · rw [(c8_amended_pot_odds 100 50).1 (by norm_num)]
    norm_num
  · exact (c8_amended_pot_odds 1 (-1)).2 (by norm_num)

/-- C9 (code_bug): no duplicate-card or hand-size validation exists.
Duplicated hole cards decode without complaint and only blow up inside the
first trial's `deck.cards.remove` (`ValueError`, not a duplicate-card
validation error); a 2-card hole hand (not 4) is accepted outright and the
call returns an equity value instead of failing with a hand-size error. -/
theorem c9_no_duplicate_or_hand_size_validation :
    convertAll ["As", "As", "Kd", "Qh"] = .ok [56, 56, 54, 49]
    ∧ calculateEquity ["As", "As", "Kd", "Qh"] [] 2 (fun _ => fullDeck)
        = .error .valueError
    ∧ calculateEquity ["As", "Kd"] ["2c", "7d", "8h", "9s", "10s"] 2 (fun _ => fullDeck)
        = .ok 0 := by
  refine ⟨by decide, by decide, ?_⟩
  have heq := calculateEquity_const ["As", "Kd"] ["2c", "7d", "8h", "9s", "10s"]
      2 0 fullDeck [56, 54] [11, 30, 33, 36, 40] (by decide) (by decide) (by decide)
  rw [heq]
  norm_num

/-- C10 (confirmed): the decoded hole-card and known-community lists are
exactly the caller's tokens decoded in order, and every trial's board is
built as the known-community list (unchanged, as a prefix) followed by the
freshly drawn completion; the hero's evaluated hand is the hole cards
followed by that board.  Mutation-freedom holds by construction in this
pure embedding because the source copies (`communityCardsTreys.copy()`) and
concatenates (`holeCardsTreys + currentCommunity`) rather than updating the
decoded lists in place. -/
theorem c10_known_cards_preserved (hole comm : List String) (holeT commT : List Nat)
    (np : Nat) (shuffle : List Nat) (t : TrialData)
    (hh : convertAll hole = .ok holeT) (hc : convertAll comm = .ok commT)
    (h : trialData holeT commT np shuffle = .ok t) :
    List.Forall₂ (fun sStr c => convertCardStrToTreys sStr = .ok c) hole holeT
    ∧ List.Forall₂ (fun sStr c => convertCardStrToTreys sStr = .ok c) comm commT
    ∧ t.currentCommunity = commT ++ t.boardDrawn
    ∧ t.ourHand = holeT ++ t.currentCommunity := by
  obtain ⟨-, -, -, hcc, hoh, -⟩ := trialData_spec _ _ _ _ _ h
  exact ⟨convertAll_forall₂ _ _ hh, convertAll_forall₂ _ _ hc, hcc, hoh⟩

/-- Witness for C10 at a concrete two-player trial. -/
theorem c10_witness :
    ∃ t, trialData [56, 58, 57, 59] [52, 54, 53, 55, 8] 2 fullDeck = .ok t
      ∧ List.Forall₂ (fun sStr c => convertCardStrToTreys sStr = .ok c)
          ["As", "Ad", "Ah", "Ac"] [56, 58, 57, 59]
      ∧ List.Forall₂ (fun sStr c => convertCardStrToTreys sStr = .ok c)
          ["Ks", "Kd", "Kh", "Kc", "2s"] [52, 54, 53, 55, 8]
      ∧ t.currentCommunity = [52, 54, 53, 55, 8] ++ t.boardDrawn
      ∧ t.ourHand = [56, 58, 57, 59] ++ t.currentCommunity := by
  cases h : trialData [56, 58, 57, 59] [52, 54, 53, 55, 8] 2 fullDeck with
  | error e =>
    have hok : (trialData [56, 58, 57, 59] [52, 54, 53, 55, 8] 2 fullDeck).isOk = true := by
      decide
    rw [h] at hok
    simp [Except.isOk, Except.toBool] at hok
  | ok t =>
    obtain ⟨h1, h2, h3, h4⟩ := c10_known_cards_preserved
      ["As", "Ad", "Ah", "Ac"] ["Ks", "Kd", "Kh", "Kc", "2s"]
      [56, 58, 57, 59] [52, 54, 53, 55, 8] 2 fullDeck t (by decide) (by decide) h
    exact ⟨t, rfl, h1, h2, h3, h4⟩
